import Mathlib

/-!
Verification of the core data/algorithm layer of `bilibili-follow-manager`
(`bilibili_api.py` and `gui.py`) against its natural-language specification.

Python strings are embedded as `List Char`, Python dicts as association
lists (insertion-ordered, update-in-place), fallible code as `Option`,
and `random.uniform` as an explicit jitter parameter constrained by a
hypothesis.  Floating point arithmetic is modelled over `ℚ`.
-/

/-- Python `str` embedded as a list of characters. -/
abbrev Str := List Char

/-- Python `str.lower()`. -/
def pyLower (s : Str) : Str := s.map Char.toLower

/-- Whitespace test used by Python `str.strip()` / `str.split()`. -/
def isSpaceChar (c : Char) : Bool := c.isWhitespace

/-- Python `str.strip()`: drop whitespace from both ends. -/
def pyStrip (s : Str) : Str :=
  ((s.dropWhile isSpaceChar).reverse.dropWhile isSpaceChar).reverse

/-- Python `sub in s` substring test. -/
def pyContains (sub : Str) : Str → Bool
  | [] => sub.isEmpty
  | c :: rest => sub.isPrefixOf (c :: rest) || pyContains sub rest

/-- Python `str.split()` with no argument: split on whitespace runs,
dropping empty pieces. -/
def pySplitWs (s : Str) : List Str :=
  (s.splitOnP isSpaceChar).filter (fun w => !w.isEmpty)

/-- Python list slicing `l[s:e]` (step 1), including negative-index
semantics: a negative bound counts from the end, then bounds are clamped
into `[0, len]`. -/
def pySlice {α : Type} (l : List α) (s e : Int) : List α :=
  let n : Int := (l.length : Int)
  let s' : Int := if s < 0 then max 0 (n + s) else min s n
  let e' : Int := if e < 0 then max 0 (n + e) else min e n
  (l.take e'.toNat).drop s'.toNat

/-- Python dict lookup `d.get(k)` over an insertion-ordered association
list. -/
def dictGet {α : Type} (k : Str) : List (Str × α) → Option α
  | [] => none
  | (k', v) :: rest => if k = k' then some v else dictGet k rest

/-- Python `d[k] = v`: overwrite in place if the key exists, else append a
new entry at the end (dict insertion order). -/
def dictSet {α : Type} (k : Str) (v : α) : List (Str × α) → List (Str × α)
  | [] => [(k, v)]
  | (k', v') :: rest =>
      if k = k' then (k, v) :: rest else (k', v') :: dictSet k v rest

/-- The pattern `if k not in d: d[k] = []` followed by `d[k].append(v)`. -/
def dictAppend {α : Type} (k : Str) (v : α) :
    List (Str × List α) → List (Str × List α)
  | [] => [(k, [v])]
  | (k', vs) :: rest =>
      if k = k' then (k', vs ++ [v]) :: rest else (k', vs) :: dictAppend k v rest

/-- The id list stored under a key, `[]` when the key is absent. -/
def idsAt {α : Type} (d : List (Str × List α)) (k : Str) : List α :=
  (dictGet k d).getD []

@[simp]
theorem dictGet_nil {α : Type} (k : Str) : dictGet (α := α) k [] = none := rfl

theorem dictGet_dictSet_self {α : Type} (k : Str) (v : α) (d : List (Str × α)) :
    dictGet k (dictSet k v d) = some v := by
  induction d with
  | nil => simp [dictGet, dictSet]
  | cons hd tl ih =>
      obtain ⟨k', v'⟩ := hd
      by_cases h : k = k' <;> simp [dictGet, dictSet, h, ih]

theorem dictGet_dictSet_ne {α : Type} {k k' : Str} (h : k ≠ k') (v : α)
    (d : List (Str × α)) : dictGet k (dictSet k' v d) = dictGet k d := by
  induction d with
  | nil => simp [dictGet, dictSet, h]
  | cons hd tl ih =>
      obtain ⟨k'', v''⟩ := hd
      by_cases h1 : k' = k'' <;> by_cases h2 : k = k'' <;>
        simp_all [dictGet, dictSet]

theorem dictGet_map_snd {α β : Type} (f : α → β) (k : Str)
    (d : List (Str × α)) :
    dictGet k (d.map (fun kv => (kv.1, f kv.2))) = (dictGet k d).map f := by
  induction d with
  | nil => simp
  | cons hd tl ih =>
      obtain ⟨k', v⟩ := hd
      by_cases h : k = k' <;> simp [dictGet, h, ih]

theorem idsAt_dictAppend_self {α : Type} (k : Str) (v : α)
    (d : List (Str × List α)) :
    idsAt (dictAppend k v d) k = idsAt d k ++ [v] := by
  induction d with
  | nil => simp [idsAt, dictAppend, dictGet]
  | cons hd tl ih =>
      obtain ⟨k', vs⟩ := hd
      by_cases h : k = k' <;> simp [idsAt, dictAppend, dictGet, h] at ih ⊢
      exact ih

theorem idsAt_dictAppend_ne {α : Type} {k k' : Str} (h : k' ≠ k) (v : α)
    (d : List (Str × List α)) : idsAt (dictAppend k v d) k' = idsAt d k' := by
  induction d with
  | nil => simp [idsAt, dictAppend, dictGet, h]
  | cons hd tl ih =>
      obtain ⟨k'', vs⟩ := hd
      by_cases h1 : k = k'' <;> by_cases h2 : k' = k'' <;>
        simp_all [idsAt, dictAppend, dictGet]

theorem mem_idsAt_dictAppend {α : Type} (x v : α) (k k' : Str)
    (d : List (Str × List α)) :
    x ∈ idsAt (dictAppend k v d) k' ↔ x ∈ idsAt d k' ∨ (k' = k ∧ x = v) := by
  by_cases h : k' = k
  · subst h
    rw [idsAt_dictAppend_self]
    simp
  · rw [idsAt_dictAppend_ne h]
    simp [h]

/-!
### Governor — `AntiAntiControl` (`bilibili_api.py`)

`random.uniform(a, b)` values are passed in as explicit parameters; the
theorems constrain them to the closed interval the source draws from.
Milliseconds-to-seconds float arithmetic is modelled over `ℚ`.
-/

/-- The fixed retryable error-code set of `AntiAntiControl.should_retry`. -/
def retryableCodes : List Int := [-352, 412, 500, 502, 503, 504]

/-- `AntiAntiControl.should_retry(attempt, error_code)`: `False` once
`attempt >= max_retries`; otherwise `True` for a code in the retryable set
and `True` for any other non-`None` code. -/
def should_retry (max_retries attempt : Nat) (error_code : Option Int) : Bool :=
  if max_retries ≤ attempt then false
  else if (match error_code with
           | some c => retryableCodes.contains c
           | none => false) then true
  else error_code.isSome

/-- `AntiAntiControl.get_exponential_backoff(attempt)`:
`base_backoff_ms * 2 ** attempt / 1000` seconds plus the sampled jitter
(source: `random.uniform(0, backoff * 0.3)`). -/
def get_exponential_backoff (base_backoff_ms : ℚ) (attempt : Nat)
    (jitter : ℚ) : ℚ :=
  base_backoff_ms * 2 ^ attempt / 1000 + jitter

/-- `AntiAntiControl.get_retry_delay(attempt, error_code)`: 1.5 × the
exponential backoff for the two risk-control codes −352/412, the plain
backoff otherwise (`None` is not in `[-352, 412]`). -/
def get_retry_delay (base_backoff_ms : ℚ) (attempt : Nat) (jitter : ℚ)
    (error_code : Option Int) : ℚ :=
  if error_code = some (-352) ∨ error_code = some 412 then
    get_exponential_backoff base_backoff_ms attempt jitter * 1.5
  else
    get_exponential_backoff base_backoff_ms attempt jitter

/-!
### Transport retry loop — `BilibiliAPI._make_request` (`bilibili_api.py`)

One loop iteration per attempt, `max_retries + 1` attempts in total.  Each
attempt either raises a transport exception or produces an HTTP status and
a decoded envelope code (`data.get('code', -1)`).  Sleeps and logging do
not affect control flow and are not modelled.  The loop returns the
response only for envelope codes 0 and 22013 on HTTP 200; every other
outcome — rate-limit codes −352/412, any other application error code,
HTTP 412/429, other non-200 statuses, and transport exceptions — proceeds
to the next attempt, and exhausting the loop raises the terminal
"请求失败，已重试 N 次" exception.
-/

/-- The observable result of one `self.session.request` call. -/
inductive AttemptResult : Type where
  | exc : AttemptResult
  | resp (status : Int) (code : Int) : AttemptResult
deriving DecidableEq

/-- The terminal result of `BilibiliAPI._make_request`: the response
returned (with the attempt index it was returned on), or the exception
raised after the loop. -/
inductive ReqOutcome : Type where
  | success (attempt : Nat) (status : Int) (code : Int) : ReqOutcome
  | exhausted : ReqOutcome
deriving DecidableEq

/-- The body of `_make_request`'s `for attempt in range(max_retries + 1)`
loop, with `fuel` remaining iterations.  Returns the outcome together with
the number of `session.request` calls performed. -/
def makeRequestGo (responses : Nat → AttemptResult) (attempt : Nat) :
    Nat → ReqOutcome × Nat
  | 0 => (ReqOutcome.exhausted, 0)
  | fuel + 1 =>
    match responses attempt with
    | AttemptResult.exc =>
        -- `requests.RequestException`: logged, retry-delay sleep, next attempt
        let r := makeRequestGo responses (attempt + 1) fuel
        (r.1, r.2 + 1)
    | AttemptResult.resp status code =>
        if status = 200 then
          if code = 0 then (ReqOutcome.success attempt status code, 1)
          else if code = -352 ∨ code = 412 then
            -- rate-limited: retry-delay sleep, next attempt
            let r := makeRequestGo responses (attempt + 1) fuel
            (r.1, r.2 + 1)
          else if code = 22013 then (ReqOutcome.success attempt status code, 1)
          else
            -- any other application error: logged, then the common retry path
            let r := makeRequestGo responses (attempt + 1) fuel
            (r.1, r.2 + 1)
        else if status = 412 ∨ status = 429 then
          -- HTTP-level rate limit: doubled backoff sleep, next attempt
          let r := makeRequestGo responses (attempt + 1) fuel
          (r.1, r.2 + 1)
        else
          -- other non-200: logged, then the common retry path
          let r := makeRequestGo responses (attempt + 1) fuel
          (r.1, r.2 + 1)

/-- `BilibiliAPI._make_request` with anti-control enabled, abstracted over
the per-attempt transport behaviour. -/
def make_request (max_retries : Nat) (responses : Nat → AttemptResult) :
    ReqOutcome × Nat :=
  makeRequestGo responses 0 (max_retries + 1)

/-- An attempt result that is HTTP 200 with an envelope code that is
neither success (0) nor already-in-state (22013). -/
def isNonSuccess200 : AttemptResult → Bool
  | AttemptResult.exc => false
  | AttemptResult.resp status code =>
      status == 200 && code != 0 && code != 22013

/-!
### Relation store — `DataManager.process_data` (`gui.py`)

The three indices built per user, the `users` map, and `total_count` are
embedded; the `statistics` histograms and the `by_sign` token index (whose
iteration order depends on Python `set` ordering and a `\b\w+\b` regex)
are carried by no claim and are omitted.  The heterogeneous `__total__`
sentinel entry — an `int` count stored in the same dict as the `list`
entries — is modelled by an `IndexVal` sum in the final index view.
-/

/-- One element of `raw_list`: the dict fields `process_data` reads.
`uid`/`mid` hold `str(user.get('uid', ''))` / `str(user.get('mid', ''))`. -/
structure RawUser : Type where
  uid : Str
  mid : Str
  uname : Str
  sign : Str
deriving DecidableEq

/-- `str(user.get('uid', '')) or str(user.get('mid', ''))`: an empty
`uid` string is falsy, so `mid` is the fallback. -/
def effUid (u : RawUser) : Str := if u.uid = [] then u.mid else u.uid

/-- The stored per-user record (`user_info`); fields not needed by any
claim (`mtime`, `face`, `vip`, `official`) are omitted. -/
structure UserInfo : Type where
  uid : Str
  uname : Str
  sign : Str
deriving DecidableEq

/-- The snapshot built by `process_data`. -/
structure Processed : Type where
  total_count : Nat
  users : List (Str × UserInfo)
  by_name : List (Str × List Str)
  by_uid : List (Str × List Str)

/-- The loop `for i in range(1, bound): index[key[:i]].append(uid)`,
given the list of prefix lengths `i` it ranges over. -/
def addPrefixEntries (uid : Str) (keyStr : Str) (idxs : List Nat)
    (d : List (Str × List Str)) : List (Str × List Str) :=
  idxs.foldl (fun acc i => dictAppend (keyStr.take i) uid acc) d

/-- The body of `process_data`'s `for user in raw_list` loop: skip a user
with no effective id, otherwise store its record and extend the indices.
The `by_name` loop `range(1, min(len(name_lower) + 1, 20))` yields the
prefix lengths `1 .. min(len(name_lower), 19)`. -/
def processStep (p : Processed) (u : RawUser) : Processed :=
  let uid := effUid u
  if uid = [] then p
  else
    let uname := pyStrip u.uname
    let sign := if u.sign = [] then [] else pyStrip u.sign
    let name_lower := pyLower uname
    let uid_key := pyLower uid
    { total_count := p.total_count
      users := dictSet uid { uid := uid, uname := uname, sign := sign } p.users
      by_name := addPrefixEntries uid name_lower
        (List.range' 1 (min name_lower.length 19)) p.by_name
      by_uid :=
        if uid_key.length ≤ 20 then
          addPrefixEntries uid uid_key (List.range' 1 uid_key.length) p.by_uid
        else p.by_uid }

/-- `DataManager.process_data(raw_list)`: `total_count` is set to
`len(raw_list)` up front; the loop then fills `users` and the indices. -/
def process_data (raw : List RawUser) : Processed :=
  raw.foldl processStep
    { total_count := raw.length, users := [], by_name := [], by_uid := [] }

/-- A value of the final index dict: an id list, or the `__total__`
key-count sentinel. -/
inductive IndexVal : Type where
  | ids (l : List Str) : IndexVal
  | count (n : Nat) : IndexVal
deriving DecidableEq

/-- The `'__total__'` sentinel key. -/
def sentinelKey : Str := "__total__".toList

/-- The final `by_name` dict after
`processed['index']['by_name']['__total__'] = len(...)`: the loop-built
entries, with the sentinel count stored under `'__total__'` (overwriting
any colliding name-prefix entry, as the Python assignment does). -/
def byNameFinal (p : Processed) : List (Str × IndexVal) :=
  dictSet sentinelKey (IndexVal.count p.by_name.length)
    (p.by_name.map (fun kv => (kv.1, IndexVal.ids kv.2)))

/-- Whether the final `by_name` index maps key `pre` to an id list
containing `uid`. -/
def nameMapsTo (p : Processed) (pre uid : Str) : Bool :=
  match dictGet pre (byNameFinal p) with
  | some (IndexVal.ids ids) => ids.contains uid
  | _ => false

/-!
### Observer fan-out — `DataManager.notify_observers` (`gui.py`)

A registered observer is a named callback; a callback either returns or
raises (`Except.error` with the exception text).  `notify_observers`
iterates over all observers, invoking each inside `try/except`; the model
returns, per observer in registration order, its name and the logged
error message (`none` when the callback returned normally).
-/

/-- The caught-and-logged result of one callback invocation. -/
def catchLog {α : Type} (r : Except String α) : Option String :=
  match r with
  | Except.ok _ => none
  | Except.error e => some e

/-- `DataManager.notify_observers(event, data)` over the registered
observer list. -/
def notify_observers {α : Type} (observers : List (String × (String → α → Except String Unit)))
    (event : String) (data : α) : List (String × Option String) :=
  observers.map (fun nc => (nc.1, catchLog (nc.2 event data)))

/-!
### Search service — `SearchService` (`gui.py`)

`search` is embedded as a pure function of the data list, the in-memory
history, the query, and the pagination parameters; it returns the result
record together with the updated history, or `none` where the Python code
would raise `ZeroDivisionError` (`page_size = 0` on a non-empty query).
The `elapsed` wall-clock field is not modelled.
-/

/-- One entry of `SearchService.data`: the dict fields `search` reads. -/
structure PyUser : Type where
  uid : Str
  uname : Str
  sign : Str
deriving DecidableEq

/-- The result dict of `SearchService.search`. -/
structure SearchResult : Type where
  results : List PyUser
  total : Nat
  page : Int
  page_size : Int
  total_pages : Int
  query : Str
deriving DecidableEq

/-- `SearchService.add_to_history(query)`: a non-empty stripped query has
its first earlier occurrence removed and is inserted at the front. -/
def add_to_history (history : List Str) (query : Str) : List Str :=
  if (pyStrip query).isEmpty then history
  else pyStrip query :: history.erase (pyStrip query)

/-- The list `SearchService.save_history` persists to disk:
`self.search_history[-50:]`, i.e. the last 50 elements of the in-memory
list (the whole list when it is shorter). -/
def save_history (history : List Str) : List Str :=
  history.drop (history.length - 50)

/-- `SearchService.get_history(limit)`. -/
def get_history (history : List Str) (limit : Nat) : List Str :=
  history.take limit

/-- The exact-mode membership test of `search`: the keyword is a substring
of the lowered name, the id string, or the lowered bio. -/
def userMatchesExact (keyword : Str) (u : PyUser) : Bool :=
  pyContains keyword (pyLower u.uname) || pyContains keyword u.uid ||
    pyContains keyword (pyLower u.sign)

/-- The token-mode membership test of `search`: some whitespace-split
token of the keyword is a substring of the lowered name, the lowered bio,
or the id string. -/
def userMatchesTokens (keywords : List Str) (u : PyUser) : Bool :=
  keywords.any (fun kw =>
    pyContains kw (pyLower u.uname) || pyContains kw (pyLower u.sign) ||
      pyContains kw u.uid)

/-- The filtering step of `search` (before pagination). -/
def searchFilter (data : List PyUser) (keyword : Str) (exact : Bool) :
    List PyUser :=
  if exact then data.filter (userMatchesExact keyword)
  else data.filter (userMatchesTokens (pySplitWs keyword))

/-- `SearchService.search(query, exact, page, page_size)`, returning the
result record and the updated history, or `none` exactly where the Python
code raises `ZeroDivisionError`. -/
def searchImpl (data : List PyUser) (history : List Str) (query : Str)
    (exact : Bool) (page page_size : Int) :
    Option (SearchResult × List Str) :=
  if (pyStrip query).isEmpty then
    some ({ results := [], total := 0, page := 1, page_size := page_size,
            total_pages := 0, query := [] }, history)
  else
    let q := pyStrip query
    let keyword := pyLower q
    let results := searchFilter data keyword exact
    let total := results.length
    if page_size = 0 then none
    else
      let total_pages := Int.fdiv ((total : Int) + page_size - 1) page_size
      let page' := min page (max 1 total_pages)
      let start_idx := (page' - 1) * page_size
      let end_idx := start_idx + page_size
      let page_results := pySlice results start_idx end_idx
      some ({ results := page_results, total := total, page := page',
              page_size := page_size, total_pages := total_pages,
              query := q }, add_to_history history q)

/-!
## Claim theorems
-/

/-- Claim C2: `should_retry(attempt, error_code)` returns false whenever
`attempt ≥ max_retries`; for `attempt < max_retries` it returns true when
the code is in the fixed retryable set {−352, 412, 500, 502, 503, 504},
true for any other non-null code, and false for a success (null) code. -/
theorem c2_should_retry (mr a : Nat) (c : Int) :
    (mr ≤ a → ∀ ec, should_retry mr a ec = false)
    ∧ (a < mr → c ∈ retryableCodes → should_retry mr a (some c) = true)
    ∧ (a < mr → should_retry mr a (some c) = true)
    ∧ should_retry mr a none = false := by
  refine ⟨fun h ec => ?_, fun h _ => ?_, fun h => ?_, ?_⟩
  · simp [should_retry, h]
  · simp only [should_retry, if_neg (by omega : ¬ mr ≤ a)]
    split <;> simp
  · simp only [should_retry, if_neg (by omega : ¬ mr ≤ a)]
    split <;> simp
  · simp only [should_retry]
    split <;> simp

/-- Witness for C2 at `max_retries = 3`: attempt 3 is refused, attempt 0
retries the retryable code 412, retries the unrecognized code 7, and
refuses a null code. -/
theorem c2_witness :
    should_retry 3 3 (some 500) = false ∧ should_retry 3 0 (some 412) = true
      ∧ should_retry 3 0 (some 7) = true ∧ should_retry 3 0 none = false :=
  ⟨(c2_should_retry 3 3 500).1 (by decide) (some 500),
   (c2_should_retry 3 0 412).2.1 (by decide) (by decide),
   (c2_should_retry 3 0 7).2.2.1 (by decide),
   (c2_should_retry 3 0 7).2.2.2⟩

/-- Claim C7: a query that is empty or whitespace-only makes `search`
return `{results: [], total: 0, total_pages: 0}` (with `page` 1) for any
data and pagination parameters, and leaves the history unchanged. -/
theorem c7_empty_query (data : List PyUser) (history : List Str)
    (query : Str) (exact : Bool) (page page_size : Int)
    (h : pyStrip query = []) :
    searchImpl data history query exact page page_size =
      some ({ results := [], total := 0, page := 1, page_size := page_size,
              total_pages := 0, query := [] }, history) := by
  simp [searchImpl, h]

/-- Witness for C7: the whitespace query `" "` on a one-user data set with
a non-empty history. -/
theorem c7_witness :
    pyStrip [' '] = [] ∧
    searchImpl [{ uid := "9".toList, uname := "bob".toList, sign := [] }]
        ["x".toList] [' '] true 3 20 =
      some ({ results := [], total := 0, page := 1, page_size := 20,
              total_pages := 0, query := [] }, ["x".toList]) :=
  ⟨by decide,
   c7_empty_query [{ uid := "9".toList, uname := "bob".toList, sign := [] }]
     ["x".toList] [' '] true 3 20 (by decide)⟩

/-- Claim C10: for every data list, query, and page, `search` terminates
normally (never raises `ZeroDivisionError`) whenever `page_size ≥ 1`. -/
theorem c10_search_total (data : List PyUser) (history : List Str)
    (query : Str) (exact : Bool) (page : Int) (page_size : Int)
    (h : 1 ≤ page_size) :
    (searchImpl data history query exact page page_size).isSome = true := by
  have hps : page_size ≠ 0 := by omega
  by_cases hq : (pyStrip query).isEmpty <;> simp [searchImpl, hq, hps]

/-- Witness for C10 at `page_size = 20`. -/
theorem c10_witness :
    (1 : Int) ≤ 20 ∧
    (searchImpl [{ uid := "9".toList, uname := "bob".toList, sign := [] }]
      [] ("b".toList) false 1 20).isSome = true :=
  ⟨by norm_num,
   c10_search_total [{ uid := "9".toList, uname := "bob".toList, sign := [] }]
     [] ("b".toList) false 1 20 (by norm_num)⟩

/-- Claim C8: with jitter drawn from `[0, 0.3·b]` where
`b = base·2^attempt/1000` seconds, `get_exponential_backoff` lies in
`[b, 1.3·b]`; `get_retry_delay` is 1.5 × a backoff value — hence in
`[1.5·b, 1.95·b]` — exactly for the risk-control codes −352 and 412, and
is the plain backoff value for every other code. -/
theorem c8_backoff_bounds (base : ℚ) (attempt : Nat) (jitter : ℚ)
    (ec : Option Int) (hb : 0 ≤ base) (hj0 : 0 ≤ jitter)
    (hj1 : jitter ≤ 3/10 * (base * 2 ^ attempt / 1000)) :
    (base * 2 ^ attempt / 1000 ≤ get_exponential_backoff base attempt jitter
      ∧ get_exponential_backoff base attempt jitter
          ≤ 13/10 * (base * 2 ^ attempt / 1000))
    ∧ ((ec = some (-352) ∨ ec = some 412) →
        get_retry_delay base attempt jitter ec
            = get_exponential_backoff base attempt jitter * 1.5
        ∧ 3/2 * (base * 2 ^ attempt / 1000)
            ≤ get_retry_delay base attempt jitter ec
        ∧ get_retry_delay base attempt jitter ec
            ≤ 39/20 * (base * 2 ^ attempt / 1000))
    ∧ (¬(ec = some (-352) ∨ ec = some 412) →
        get_retry_delay base attempt jitter ec
          = get_exponential_backoff base attempt jitter) := by
  have hbp : (0:ℚ) ≤ base * 2 ^ attempt / 1000 := by positivity
  have hlo : base * 2 ^ attempt / 1000
      ≤ get_exponential_backoff base attempt jitter := by
    unfold get_exponential_backoff; linarith
  have hhi : get_exponential_backoff base attempt jitter
      ≤ 13/10 * (base * 2 ^ attempt / 1000) := by
    unfold get_exponential_backoff; linarith
  refine ⟨⟨hlo, hhi⟩, fun h => ?_, fun h => ?_⟩
  · have heq : get_retry_delay base attempt jitter ec
        = get_exponential_backoff base attempt jitter * 1.5 := by
      unfold get_retry_delay; rw [if_pos h]
    refine ⟨heq, ?_, ?_⟩
    · rw [heq]; norm_num; linarith
    · rw [heq]; norm_num; linarith
  · unfold get_retry_delay; rw [if_neg h]

/-- Witness for C8 at `base = 1000 ms`, `attempt = 2`, zero jitter, and
the risk-control code −352: the backoff is 4 s and the retry delay 6 s. -/
theorem c8_witness :
    (0:ℚ) ≤ 1000 ∧ (0:ℚ) ≤ 0 ∧ (0:ℚ) ≤ 3/10 * ((1000:ℚ) * 2 ^ 2 / 1000) ∧
    ((1000:ℚ) * 2 ^ 2 / 1000 ≤ get_exponential_backoff 1000 2 0
      ∧ get_exponential_backoff 1000 2 0 ≤ 13/10 * ((1000:ℚ) * 2 ^ 2 / 1000))
    ∧ (3/2 * ((1000:ℚ) * 2 ^ 2 / 1000) ≤ get_retry_delay 1000 2 0 (some (-352))
      ∧ get_retry_delay 1000 2 0 (some (-352))
          ≤ 39/20 * ((1000:ℚ) * 2 ^ 2 / 1000)) := by
  have h := c8_backoff_bounds 1000 2 0 (some (-352)) (by norm_num) (by norm_num)
    (by norm_num)
  exact ⟨by norm_num, by norm_num, by norm_num, h.1,
    (h.2.1 (Or.inl rfl)).2.1, (h.2.1 (Or.inl rfl)).2.2⟩

/-- Claim C9: `notify_observers` invokes every registered observer exactly
once, in registration order, and a raising callback is caught (its message
logged) without preventing delivery to the remaining observers. -/
theorem c9_notify_all {α : Type}
    (observers : List (String × (String → α → Except String Unit)))
    (event : String) (data : α) :
    (notify_observers observers event data).length = observers.length
    ∧ (notify_observers observers event data).map Prod.fst
        = observers.map Prod.fst
    ∧ ∀ i (h1 : i < (notify_observers observers event data).length)
        (h2 : i < observers.length),
        (notify_observers observers event data)[i] =
          ((observers[i]).1, catchLog ((observers[i]).2 event data)) := by
  refine ⟨by simp [notify_observers], ?_, ?_⟩
  · simp [notify_observers]
  · intro i h1 h2
    simp [notify_observers]

/-- Three concrete observers, the middle of which raises. -/
def c9Observers : List (String × (String → Nat → Except String Unit)) :=
  [("a", fun _ _ => Except.ok ()),
   ("b", fun _ _ => Except.error "boom"),
   ("c", fun _ _ => Except.ok ())]

/-- Witness for C9: three observers where the middle one raises; all
three are invoked, the failure is logged, and the third still runs. -/
theorem c9_witness :
    (notify_observers c9Observers "data_updated" 0).length
        = c9Observers.length
    ∧ (notify_observers c9Observers "data_updated" 0).map Prod.fst
        = c9Observers.map Prod.fst
    ∧ ∀ i (_h1 : i < (notify_observers c9Observers "data_updated" 0).length)
        (h2 : i < c9Observers.length),
        (notify_observers c9Observers "data_updated" 0)[i] =
          ((c9Observers[i]).1, catchLog ((c9Observers[i]).2 "data_updated" 0)) :=
  c9_notify_all c9Observers "data_updated" 0

theorem makeRequestGo_exhausts (responses : Nat → AttemptResult) :
    ∀ (fuel attempt : Nat),
      (∀ i, attempt ≤ i → i < attempt + fuel →
        isNonSuccess200 (responses i) = true) →
      makeRequestGo responses attempt fuel = (ReqOutcome.exhausted, fuel)
  | 0, _, _ => rfl
  | fuel + 1, attempt, h => by
      have hA : isNonSuccess200 (responses attempt) = true :=
        h attempt le_rfl (by omega)
      have ih := makeRequestGo_exhausts responses fuel (attempt + 1)
        (fun i h1 h2 => h i (by omega) (by omega))
      cases hr : responses attempt with
      | exc => rw [hr] at hA; simp [isNonSuccess200] at hA
      | resp s c =>
          rw [hr] at hA
          simp only [isNonSuccess200, Bool.and_eq_true, beq_iff_eq,
            bne_iff_ne, ne_eq] at hA
          obtain ⟨⟨hs, hc0⟩, hc2⟩ := hA
          subst hs
          simp only [makeRequestGo, hr, if_pos rfl, ih]
          split_ifs <;> simp_all

/-- Counterexample to claim C5: with every attempt answering HTTP 200 and
the permanent, non-retryable application error code −101 (not success, not
22013, not a risk-control code), `_make_request` does not surface the
failure after the first attempt: it performs all `max_retries + 1 = 4`
attempts and then raises the exhausted-retries exception. -/
theorem c5_counterexample :
    make_request 3 (fun _ => AttemptResult.resp 200 (-101))
      = (ReqOutcome.exhausted, 4) := by decide

/-- Claim C5 as amended: on HTTP 200 the retry loop of `_make_request`
returns immediately only for envelope codes 0 and 22013; every other
application error code — permanent errors included — is logged and then
retried through the common retry path, and a stream of such responses
exhausts all `max_retries + 1` attempts before raising the terminal
exhausted-retries exception. -/
theorem c5_amended (mr : Nat) (responses : Nat → AttemptResult)
    (h : ∀ i, i ≤ mr → isNonSuccess200 (responses i) = true) :
    make_request mr responses = (ReqOutcome.exhausted, mr + 1) :=
  makeRequestGo_exhausts responses (mr + 1) 0 (fun i _ h2 => h i (by omega))

/-- Witness for C5: `max_retries = 1` and a constant HTTP-200 response
with the unrecognized application error code 5 exhausts both attempts. -/
theorem c5_witness :
    (∀ i, i ≤ 1 →
      isNonSuccess200 ((fun _ => AttemptResult.resp 200 5) i) = true)
    ∧ make_request 1 (fun _ => AttemptResult.resp 200 5)
        = (ReqOutcome.exhausted, 2) :=
  ⟨by decide, c5_amended 1 (fun _ => AttemptResult.resp 200 5) (by decide)⟩

/-- A 50-entry, newest-first query history whose entries are the
single-character queries `'B'`, `'C'`, …. -/
def c6History : List Str := (List.range 50).map (fun i => [Char.ofNat (66 + i)])

/-- Claim C6 (code bug): submitting the fresh query `"A"` to a 50-entry
history correctly inserts it at the front of the in-memory list, but
`save_history` then persists `search_history[-50:]` — the *last* 50
entries of the newest-first list — so the persisted list is exactly the 50
old entries and the just-submitted newest query is dropped, where the
specification (and the evident intent of `add_to_history`) requires the 50
*most recent* entries, newest first. -/
theorem c6_save_history_drops_newest :
    add_to_history c6History ['A'] = ['A'] :: c6History
    ∧ save_history (add_to_history c6History ['A']) = c6History
    ∧ ['A'] ∉ save_history (add_to_history c6History ['A']) := by
  refine ⟨by decide, by decide, by decide⟩

/-- A one-entry data set whose user matches the query `"b"`. -/
def c3User : PyUser := { uid := "7".toList, uname := "bob".toList, sign := [] }

/-- Counterexample to claim C3: the out-of-range request `page = 0` (with
one matching result, so `total_pages = 1`) is *not* clamped into
`[1, max(1, total_pages)]` — `search` computes
`page = min(page, max(1, total_pages))`, which only clamps from above, and
returns `page = 0`. -/
theorem c3_counterexample :
    ¬ (∀ res hist', searchImpl [c3User] [] ("b".toList) false 0 20
        = some (res, hist') → 1 ≤ res.page ∧ res.page ≤ max 1 res.total_pages) := by
  intro hcl
  have heval : (searchImpl [c3User] [] ("b".toList) false 0 20).map
      (fun rh => rh.1.page) = some 0 := by decide
  cases hs : searchImpl [c3User] [] ("b".toList) false 0 20 with
  | none => rw [hs] at heval; simp at heval
  | some rh =>
      obtain ⟨res, hist'⟩ := rh
      rw [hs] at heval
      simp at heval
      have h1 := (hcl res hist' hs).1
      omega

/-- Claim C3 as amended: for `page_size ≥ 1` and a non-empty query,
`search` never errors; the requested page is clamped only from above, via
`page = min(page, max(1, total_pages))` — so every requested `page ≥ 1`
ends in `[1, max(1, total_pages)]` and the results are the slice of the
clamped page, while a requested `page ≤ 0` is returned unclamped and its
slice follows Python negative-index semantics. -/
theorem c3_amended (data : List PyUser) (history : List Str) (query : Str)
    (exact : Bool) (page page_size : Int) (hps : 1 ≤ page_size)
    (hq : pyStrip query ≠ []) :
    ∃ res history',
      searchImpl data history query exact page page_size = some (res, history')
      ∧ res.page = min page (max 1 res.total_pages)
      ∧ (1 ≤ page → 1 ≤ res.page ∧ res.page ≤ max 1 res.total_pages)
      ∧ res.results = pySlice (searchFilter data (pyLower (pyStrip query)) exact)
          ((res.page - 1) * page_size) ((res.page - 1) * page_size + page_size) := by
  have h0 : ¬ ((pyStrip query).isEmpty = true) := by
    simpa [List.isEmpty_iff] using hq
  have hps0 : ¬ (page_size = 0) := by omega
  refine ⟨{ results := pySlice (searchFilter data (pyLower (pyStrip query)) exact)
              ((min page (max 1 (Int.fdiv
                (((searchFilter data (pyLower (pyStrip query)) exact).length : Int)
                  + page_size - 1) page_size)) - 1) * page_size)
              ((min page (max 1 (Int.fdiv
                (((searchFilter data (pyLower (pyStrip query)) exact).length : Int)
                  + page_size - 1) page_size)) - 1) * page_size + page_size),
            total := (searchFilter data (pyLower (pyStrip query)) exact).length,
            page := min page (max 1 (Int.fdiv
              (((searchFilter data (pyLower (pyStrip query)) exact).length : Int)
                + page_size - 1) page_size)),
            page_size := page_size,
            total_pages := Int.fdiv
              (((searchFilter data (pyLower (pyStrip query)) exact).length : Int)
                + page_size - 1) page_size,
            query := pyStrip query },
          add_to_history history (pyStrip query), ?_, rfl, fun hp => ?_, rfl⟩
  · simp [searchImpl, h0, hps0]
  · exact ⟨le_min hp (le_max_left 1 _), min_le_right _ _⟩

/-- Witness for C3: the over-range request `page = 99` on a one-match data
set is clamped to page 1 and returns that page's slice. -/
theorem c3_witness :
    (1 : Int) ≤ 20 ∧ pyStrip ("b".toList) ≠ [] ∧
    ∃ res history',
      searchImpl [c3User] [] ("b".toList) false 99 20 = some (res, history')
      ∧ res.page = min 99 (max 1 res.total_pages)
      ∧ ((1 : Int) ≤ 99 → 1 ≤ res.page ∧ res.page ≤ max 1 res.total_pages)
      ∧ res.results = pySlice (searchFilter [c3User] (pyLower (pyStrip ("b".toList))) false)
          ((res.page - 1) * 20) ((res.page - 1) * 20 + 20) :=
  ⟨by norm_num, by decide,
   c3_amended [c3User] [] ("b".toList) false 99 20 (by norm_num) (by decide)⟩

theorem processStep_total_count (p : Processed) (u : RawUser) :
    (processStep p u).total_count = p.total_count := by
  simp only [processStep]
  split <;> rfl

theorem process_data_total_count (raw : List RawUser) :
    (process_data raw).total_count = raw.length := by
  have key : ∀ (l : List RawUser) (p : Processed),
      (l.foldl processStep p).total_count = p.total_count := by
    intro l
    induction l with
    | nil => intro p; rfl
    | cons u tl ih =>
        intro p
        rw [List.foldl_cons, ih, processStep_total_count]
  exact key raw _

theorem dictSet_of_not_mem {α : Type} (k : Str) (v : α)
    (d : List (Str × α)) (h : k ∉ d.map Prod.fst) :
    dictSet k v d = d ++ [(k, v)] := by
  induction d with
  | nil => rfl
  | cons hd tl ih =>
      obtain ⟨k', v'⟩ := hd
      simp only [List.map_cons, List.mem_cons] at h
      push_neg at h
      simp [dictSet, h.1, ih h.2]

theorem foldl_users_length (raw : List RawUser) :
    ∀ (p : Processed),
      (∀ u ∈ raw, effUid u ≠ []) →
      (raw.map effUid).Nodup →
      (∀ u ∈ raw, effUid u ∉ p.users.map Prod.fst) →
      (raw.foldl processStep p).users.length = p.users.length + raw.length := by
  induction raw with
  | nil => intro p _ _ _; simp
  | cons u tl ih =>
      intro p h1 h2 h3
      rw [List.foldl_cons]
      have hu : effUid u ≠ [] := h1 u (by simp)
      have hnotin : effUid u ∉ p.users.map Prod.fst := h3 u (by simp)
      have hstep : (processStep p u).users
          = p.users ++ [(effUid u,
              { uid := effUid u, uname := pyStrip u.uname,
                sign := if u.sign = [] then [] else pyStrip u.sign })] := by
        simp only [processStep, if_neg hu]
        exact dictSet_of_not_mem _ _ _ hnotin
      have hmap2 : (List.map effUid tl).Nodup := (List.nodup_cons.mp h2).2
      have hufresh : effUid u ∉ tl.map effUid := (List.nodup_cons.mp h2).1
      have h3' : ∀ w ∈ tl, effUid w ∉ (processStep p u).users.map Prod.fst := by
        intro w hw
        rw [hstep]
        simp only [List.map_append, List.map_cons, List.map_nil,
          List.mem_append, List.mem_cons, List.not_mem_nil]
        push_neg
        refine ⟨h3 w (by simp [hw]), ?_, fun hfalse => hfalse⟩
        intro heq
        exact hufresh (heq ▸ List.mem_map_of_mem effUid hw)
      have := ih (processStep p u) (fun w hw => h1 w (by simp [hw])) hmap2 h3'
      rw [this, hstep]
      simp only [List.length_append, List.length_cons, List.length_nil,
        List.length_cons]
      omega

/-- A raw list with a single entry lacking both `uid` and `mid`. -/
def c4Raw : List RawUser :=
  [{ uid := [], mid := [], uname := "Bob".toList, sign := [] }]

/-- Counterexample to claim C4: on an input whose only entry lacks an id,
`process_data` stores `total_count = len(raw_list) = 1` while the entry is
silently skipped and the `users` map stays empty, so
`total_count ≠ |entities|`. -/
theorem c4_counterexample :
    (process_data c4Raw).total_count = 1
    ∧ (process_data c4Raw).users.length = 0 := by
  exact ⟨by decide, by decide⟩

/-- Claim C4 as amended: `process_data` stores
`total_count = len(raw_list)`, the length of the *input* list; this equals
the size of the `users` map exactly in the benign case — when every entry
has a (non-empty) effective id and no two entries share one — and an entry
lacking an id (skipped) or a duplicated id (last write wins) makes
`total_count` exceed `|entities|`. -/
theorem c4_amended (raw : List RawUser) :
    (process_data raw).total_count = raw.length
    ∧ ((∀ u ∈ raw, effUid u ≠ []) → (raw.map effUid).Nodup →
        (process_data raw).users.length = raw.length) := by
  refine ⟨process_data_total_count raw, fun h1 h2 => ?_⟩
  have := foldl_users_length raw
    { total_count := raw.length, users := [], by_name := [], by_uid := [] }
    h1 h2 (by simp)
  simpa [process_data] using this

/-- A two-entry raw list with distinct non-empty ids. -/
def c4RawW : List RawUser :=
  [{ uid := "1".toList, mid := [], uname := "Ann".toList, sign := [] },
   { uid := "2".toList, mid := [], uname := "Bob".toList, sign := [] }]

/-- Witness for C4: on two well-formed entries both counts are 2. -/
theorem c4_witness :
    (process_data c4RawW).total_count = 2
    ∧ (process_data c4RawW).users.length = 2 :=
  ⟨(c4_amended c4RawW).1, (c4_amended c4RawW).2 (by decide) (by decide)⟩

theorem mem_idsAt_addPrefixEntries (uid : Str) (ks : Str) (idxs : List Nat)
    (d : List (Str × List Str)) (x k : Str) :
    x ∈ idsAt (addPrefixEntries uid ks idxs d) k ↔
      x ∈ idsAt d k ∨ (x = uid ∧ ∃ i ∈ idxs, k = ks.take i) := by
  induction idxs generalizing d with
  | nil => simp [addPrefixEntries]
  | cons i tl ih =>
      show x ∈ idsAt (addPrefixEntries uid ks tl (dictAppend (ks.take i) uid d)) k ↔ _
      rw [ih, mem_idsAt_dictAppend]
      constructor
      · rintro ((h | ⟨rfl, rfl⟩) | ⟨rfl, j, hj, rfl⟩)
        · exact Or.inl h
        · exact Or.inr ⟨rfl, i, by simp⟩
        · exact Or.inr ⟨rfl, j, by simp [hj]⟩
      · rintro (h | ⟨rfl, j, hj, rfl⟩)
        · exact Or.inl (Or.inl h)
        · rcases List.mem_cons.mp hj with rfl | hj'
          · exact Or.inl (Or.inr ⟨rfl, rfl⟩)
          · exact Or.inr ⟨rfl, j, hj', rfl⟩

theorem mem_byName_foldl (raw : List RawUser) :
    ∀ (p : Processed) (k x : Str),
      (x ∈ idsAt (raw.foldl processStep p).by_name k ↔
        x ∈ idsAt p.by_name k ∨
          ∃ u ∈ raw, effUid u ≠ [] ∧ x = effUid u ∧
            ∃ i ∈ List.range' 1 (min (pyLower (pyStrip u.uname)).length 19),
              k = (pyLower (pyStrip u.uname)).take i) := by
  induction raw with
  | nil => simp
  | cons u tl ih =>
      intro p k x
      rw [List.foldl_cons, ih]
      by_cases hu : effUid u = []
      · have hstep : processStep p u = p := by
          simp [processStep, hu]
        rw [hstep]
        simp only [List.mem_cons]
        constructor
        · rintro (h | ⟨w, hw, rest⟩)
          · exact Or.inl h
          · exact Or.inr ⟨w, Or.inr hw, rest⟩
        · rintro (h | ⟨w, (rfl | hw), hne, rest⟩)
          · exact Or.inl h
          · exact absurd hu hne
          · exact Or.inr ⟨w, hw, hne, rest⟩
      · have hby : (processStep p u).by_name
            = addPrefixEntries (effUid u) (pyLower (pyStrip u.uname))
                (List.range' 1 (min (pyLower (pyStrip u.uname)).length 19))
                p.by_name := by
          simp [processStep, hu]
        rw [hby, mem_idsAt_addPrefixEntries]
        simp only [List.mem_cons]
        constructor
        · rintro ((h | ⟨rfl, i, hi, rfl⟩) | ⟨w, hw, rest⟩)
          · exact Or.inl h
          · exact Or.inr ⟨u, Or.inl rfl, hu, rfl, i, hi, rfl⟩
          · exact Or.inr ⟨w, Or.inr hw, rest⟩
        · rintro (h | ⟨w, (rfl | hw), hne, rfl, i, hi, rfl⟩)
          · exact Or.inl (Or.inl h)
          · exact Or.inl (Or.inr ⟨rfl, i, hi, rfl⟩)
          · exact Or.inr ⟨w, hw, hne, rfl, i, hi, rfl⟩

theorem nameMapsTo_sentinel (p : Processed) (uid : Str) :
    nameMapsTo p sentinelKey uid = false := by
  unfold nameMapsTo byNameFinal
  rw [dictGet_dictSet_self]

theorem nameMapsTo_eq_mem (p : Processed) (pre uid : Str)
    (h : pre ≠ sentinelKey) :
    (nameMapsTo p pre uid = true) ↔ uid ∈ idsAt p.by_name pre := by
  unfold nameMapsTo byNameFinal
  rw [dictGet_dictSet_ne h, dictGet_map_snd]
  cases hg : dictGet pre p.by_name with
  | none => simp [idsAt, hg]
  | some ids => simp [idsAt, hg, List.contains, List.elem_iff]

theorem take_sentinel_of_take (s : Str) (i : Nat) (h : s.take i = sentinelKey) :
    s.take 9 = sentinelKey := by
  have hlen : (s.take i).length = 9 := by rw [h]; rfl
  rw [List.length_take] at hlen
  have : s.take 9 = (s.take i).take 9 := by
    rw [List.take_take]
    congr 1
    omega
  rw [this, h]
  rfl

/-- A raw entry whose display name is exactly 20 characters long. -/
def c1User : RawUser :=
  { uid := "1".toList, mid := [], uname := List.replicate 20 'a', sign := [] }

/-- Counterexample to claim C1: for the 20-character display name
`"aaaaaaaaaaaaaaaaaaaa"`, the claim requires the case-folded prefix of
length `min(20, len) = 20` to map to the entity's id, but
`range(1, min(len(name) + 1, 20))` only indexes prefixes of length 1..19,
so the length-20 prefix maps to nothing. -/
theorem c1_counterexample :
    (pyStrip c1User.uname).length = 20
    ∧ nameMapsTo (process_data [c1User])
        ((pyLower (pyStrip c1User.uname)).take 20) (effUid c1User) = false :=
  ⟨by decide, by decide⟩

/-- Claim C1 as amended: for an input list whose entries all have
non-empty, pairwise-distinct effective ids and whose case-folded names do
not begin with the literal sentinel string `"__total__"`, the `by_name`
index built by `process_data` maps every case-folded prefix of length
1..min(19, len) of each entity's (stripped) display name to a list
containing that entity's id, and maps no other key to that id. -/
theorem c1_prefix_index (raw : List RawUser) (u : RawUser) (hu : u ∈ raw)
    (hall : ∀ v ∈ raw, effUid v ≠ [])
    (hnodup : (raw.map effUid).Nodup)
    (hsent : ∀ v ∈ raw, (pyLower (pyStrip v.uname)).take 9 ≠ sentinelKey) :
    (∀ i, 1 ≤ i → i ≤ min (pyStrip u.uname).length 19 →
      nameMapsTo (process_data raw) ((pyLower (pyStrip u.uname)).take i)
        (effUid u) = true)
    ∧ (∀ pre, nameMapsTo (process_data raw) pre (effUid u) = true →
        ∃ i, 1 ≤ i ∧ i ≤ min (pyStrip u.uname).length 19 ∧
          pre = (pyLower (pyStrip u.uname)).take i) := by
  have hlen : (pyLower (pyStrip u.uname)).length = (pyStrip u.uname).length :=
    List.length_map _ _
  constructor
  · intro i h1 h2
    have hns : (pyLower (pyStrip u.uname)).take i ≠ sentinelKey := by
      intro hcontra
      exact hsent u hu (take_sentinel_of_take _ i hcontra)
    rw [nameMapsTo_eq_mem _ _ _ hns]
    unfold process_data
    rw [mem_byName_foldl]
    refine Or.inr ⟨u, hu, hall u hu, rfl, i, ?_, rfl⟩
    rw [List.mem_range'_1]
    omega
  · intro pre hpre
    have hns : pre ≠ sentinelKey := by
      intro hcontra
      rw [hcontra, nameMapsTo_sentinel] at hpre
      exact Bool.false_ne_true hpre
    rw [nameMapsTo_eq_mem _ _ _ hns] at hpre
    unfold process_data at hpre
    rw [mem_byName_foldl] at hpre
    rcases hpre with hmem | ⟨w, hw, hwne, heq, i, hi, rfl⟩
    · simp [idsAt] at hmem
    · have hwu : u = w := List.inj_on_of_nodup_map hnodup hu hw heq
      subst hwu
      rw [List.mem_range'_1] at hi
      exact ⟨i, hi.1, by omega, rfl⟩

/-- The single raw entry used by the C1 witness. -/
def c1UserW : RawUser :=
  { uid := "1".toList, mid := [], uname := "Ann".toList, sign := [] }

/-- A clean one-entry input for the C1 witness. -/
def c1RawW : List RawUser := [c1UserW]

/-- Witness for C1 (amended): the entity named `"Ann"` with id `"1"`. -/
theorem c1_witness :
    c1UserW ∈ c1RawW
    ∧ (∀ v ∈ c1RawW, effUid v ≠ [])
    ∧ (c1RawW.map effUid).Nodup
    ∧ (∀ v ∈ c1RawW, (pyLower (pyStrip v.uname)).take 9 ≠ sentinelKey)
    ∧ ((∀ i, 1 ≤ i → i ≤ min (pyStrip c1UserW.uname).length 19 →
          nameMapsTo (process_data c1RawW)
            ((pyLower (pyStrip c1UserW.uname)).take i) (effUid c1UserW) = true)
      ∧ (∀ pre, nameMapsTo (process_data c1RawW) pre (effUid c1UserW) = true →
          ∃ i, 1 ≤ i ∧ i ≤ min (pyStrip c1UserW.uname).length 19 ∧
            pre = (pyLower (pyStrip c1UserW.uname)).take i)) :=
  ⟨by decide, by decide, by decide, by decide,
   c1_prefix_index c1RawW c1UserW (by decide) (by decide) (by decide)
     (by decide)⟩
